import Mathlib

/-!
Verification of the SmallBizInventory core (Product variant model, CSV codec,
Inventory store) against its natural-language specification.

The C++ source is shallowly embedded:
  doubles are modelled as rationals, int as an integer, strings as Lean
  strings or char lists.  The stringstream-based CSV decoding is modelled
  by an explicit stream state (remaining characters plus eof and fail
  flags) mirroring the C++ istream semantics used by the source
  (getline with a delimiter, operator>> for numerics, ignore(1)).
  std::sort is modelled relationally by its contract: the result is a
  permutation of the input that is sorted with respect to the comparator;
  the order of tied elements is not determined.
-/

namespace SmallBiz

/-! ## Decimal digit rendering (std::to_string) and reading -/

/-- The character of a decimal digit. -/
def dchar (d : ℕ) : Char := Char.ofNat (48 + d)

/-- Numeric value of a decimal digit character. -/
def dval (c : Char) : ℕ := c.toNat - 48

/-- Value of a most-significant-first decimal digit string. -/
def charsVal (cs : List Char) : ℕ := cs.foldl (fun a c => 10 * a + dval c) 0

/-- Decimal rendering of a natural number, most significant digit first. -/
def natToChars (n : ℕ) : List Char :=
  if n = 0 then [dchar 0] else ((Nat.digits 10 n).map dchar).reverse

/-- std::to_string for int: optional minus sign followed by decimal digits. -/
def intChars (i : ℤ) : List Char :=
  if i < 0 then '-' :: natToChars (-i).toNat else natToChars i.toNat

theorem dval_dchar {d : ℕ} (h : d < 10) : dval (dchar d) = d := by
  interval_cases d <;> decide

theorem isDigit_dchar {d : ℕ} (h : d < 10) : (dchar d).isDigit = true := by
  interval_cases d <;> decide

theorem charsVal_rev_map (ds : List ℕ) (hds : ∀ d ∈ ds, d < 10) (acc : ℕ) :
    List.foldl (fun a c => 10 * a + dval c) acc ((ds.map dchar).reverse)
      = acc * 10 ^ ds.length + Nat.ofDigits 10 ds := by
  induction ds generalizing acc with
  | nil => simp
  | cons d t ih =>
    have hd : d < 10 := hds d (by simp)
    have ht : ∀ x ∈ t, x < 10 := fun x hx => hds x (by simp [hx])
    simp only [List.map_cons, List.reverse_cons, List.foldl_append, List.foldl_cons,
      List.foldl_nil]
    rw [ih ht acc, dval_dchar hd, Nat.ofDigits_cons, List.length_cons]
    ring

theorem charsVal_natToChars (n : ℕ) : charsVal (natToChars n) = n := by
  by_cases h : n = 0
  · subst h; decide
  · have hds : ∀ d ∈ Nat.digits 10 n, d < 10 := fun d hd =>
      Nat.digits_lt_base (by norm_num) hd
    simp only [charsVal, natToChars, if_neg h,
      charsVal_rev_map (Nat.digits 10 n) hds 0, Nat.zero_mul, Nat.zero_add,
      Nat.ofDigits_digits]

theorem natToChars_ne_nil (n : ℕ) : natToChars n ≠ [] := by
  by_cases h : n = 0
  · subst h; decide
  · simp only [natToChars, if_neg h, ne_eq, List.reverse_eq_nil_iff,
      List.map_eq_nil_iff]
    exact Nat.digits_ne_nil_iff_ne_zero.mpr h

theorem natToChars_all_digit (n : ℕ) : ∀ c ∈ natToChars n, c.isDigit = true := by
  by_cases h : n = 0
  · subst h; decide
  · simp only [natToChars, if_neg h]
    intro c hc
    rw [List.mem_reverse, List.mem_map] at hc
    obtain ⟨d, hd, rfl⟩ := hc
    exact isDigit_dchar (Nat.digits_lt_base (by norm_num) hd)

/-- The six zero-padded digits of the fractional part printed by "%f"
(values below one million, most significant digit first). -/
def frac6 (n : ℕ) : List Char :=
  [dchar (n / 100000 % 10), dchar (n / 10000 % 10), dchar (n / 1000 % 10),
   dchar (n / 100 % 10), dchar (n / 10 % 10), dchar (n % 10)]

theorem charsVal_frac6 {n : ℕ} (h : n < 1000000) : charsVal (frac6 n) = n := by
  simp only [charsVal, frac6, List.foldl_cons, List.foldl_nil,
    dval_dchar (Nat.mod_lt _ (by norm_num))]
  omega

theorem frac6_all_digit (n : ℕ) : ∀ c ∈ frac6 n, c.isDigit = true := by
  simp only [frac6, List.mem_cons, List.not_mem_nil, or_false]
  rintro c (rfl | rfl | rfl | rfl | rfl | rfl) <;>
    exact isDigit_dchar (Nat.mod_lt _ (by norm_num))

theorem frac6_length (n : ℕ) : (frac6 n).length = 6 := rfl

/-! ## Fixed six-decimal formatting (std::to_string for double) and rounding -/

/-- The integer nearest to one million times the value (ties rounded up);
the quantity printed by std::to_string on a nonnegative double. -/
def round6num (x : ℚ) : ℤ := ⌊x * 1000000 + 1 / 2⌋

/-- The value actually denoted by the six-decimal rendering of x. -/
def round6 (x : ℚ) : ℚ := (round6num x : ℚ) / 1000000

/-- std::to_string of a nonnegative double: integer part, a dot, and six
fractional digits. -/
def fmt6nn (x : ℚ) : List Char :=
  natToChars ((round6num x).toNat / 1000000) ++
    '.' :: frac6 ((round6num x).toNat % 1000000)

/-- std::to_string of a double (sign prepended for negative values). -/
def fmt6 (x : ℚ) : List Char :=
  if x < 0 then '-' :: fmt6nn (-x) else fmt6nn x

theorem round6num_nonneg {x : ℚ} (hx : 0 ≤ x) : 0 ≤ round6num x := by
  have : (0 : ℚ) ≤ x * 1000000 + 1 / 2 := by positivity
  exact Int.le_floor.mpr (by exact_mod_cast this)

theorem round6_nonneg {x : ℚ} (hx : 0 ≤ x) : 0 ≤ round6 x := by
  have := round6num_nonneg hx
  unfold round6
  positivity

theorem abs_round6_sub (x : ℚ) : |round6 x - x| ≤ 1 / 1000000 := by
  have h1 : (round6num x : ℚ) ≤ x * 1000000 + 1 / 2 := Int.floor_le _
  have h2 : x * 1000000 + 1 / 2 - 1 < (round6num x : ℚ) := Int.sub_one_lt_floor _
  have e : round6 x - x = ((round6num x : ℚ) - x * 1000000) / 1000000 := by
    unfold round6; ring
  rw [e, abs_div, show |(1000000 : ℚ)| = 1000000 by norm_num]
  have h3 : |(round6num x : ℚ) - x * 1000000| ≤ 1 := by
    rw [abs_le]; constructor <;> linarith
  linarith

/-! ## The Product variant model -/

/-- The closed set of product kinds with their per-variant payloads
(PhysicalProduct and DigitalProduct subclasses in the source). -/
inductive PVariant : Type
  | physical (weight : ℚ) (supplier : String)
  | digital (downloadLink : String) (fileSizeMB : ℚ) (licenseType : String)
deriving DecidableEq

/-- A product record: the common base fields of class Product together with
the variant payload of the concrete subclass. -/
structure Product : Type where
  sku : String
  name : String
  price : ℚ
  quantity : ℤ
  category : String
  variant : PVariant
deriving DecidableEq

namespace Product

/-- Product::getType, dispatched on the concrete subclass. -/
def getType (p : Product) : String :=
  match p.variant with
  | .physical _ _ => "Physical"
  | .digital _ _ _ => "Digital"

/-- Product::calculateValue, price times quantity. -/
def calculateValue (p : Product) : ℚ := p.price * p.quantity

/-- Product::applyDiscount and the DigitalProduct override: out-of-range
percentages return the price unchanged; digital products add a five point
bonus capped at fifty. -/
def applyDiscount (p : Product) (percentage : ℚ) : ℚ :=
  match p.variant with
  | .physical _ _ =>
      if percentage < 0 ∨ percentage > 100 then p.price
      else p.price * (1 - percentage / 100)
  | .digital _ _ _ =>
      if percentage < 0 ∨ percentage > 100 then p.price
      else p.price * (1 - min (percentage + 5) 50 / 100)

/-- Product::setName (unconditional). -/
def setName (p : Product) (name : String) : Product := { p with name := name }

/-- Product::setCategory (unconditional). -/
def setCategory (p : Product) (category : String) : Product :=
  { p with category := category }

/-- Product::setPrice: rejects negative input without mutating. -/
def setPrice (p : Product) (price : ℚ) : Bool × Product :=
  if price < 0 then (false, p) else (true, { p with price := price })

/-- Product::setQuantity: rejects negative input without mutating. -/
def setQuantity (p : Product) (quantity : ℤ) : Bool × Product :=
  if quantity < 0 then (false, p) else (true, { p with quantity := quantity })

/-- PhysicalProduct::setWeight: rejects negative input without mutating.
The digital branch is unreachable in the source (the method exists only on
PhysicalProduct) and is mapped to failure. -/
def setWeight (p : Product) (w : ℚ) : Bool × Product :=
  match p.variant with
  | .physical _ supplier =>
      if w < 0 then (false, p)
      else (true, { p with variant := .physical w supplier })
  | .digital _ _ _ => (false, p)

/-- DigitalProduct::setFileSizeMB: rejects negative input without mutating.
The physical branch is unreachable in the source and is mapped to failure. -/
def setFileSizeMB (p : Product) (sz : ℚ) : Bool × Product :=
  match p.variant with
  | .digital link _ lic =>
      if sz < 0 then (false, p)
      else (true, { p with variant := .digital link sz lic })
  | .physical _ _ => (false, p)

/-- The base-class field initialization shared by both parameterized
constructors: negative price and quantity are clamped to zero. -/
def defaultBase (v : PVariant) : Product :=
  { sku := "", name := "", price := 0, quantity := 0, category := "General",
    variant := v }

end Product

/-- The parameterized PhysicalProduct constructor: price, quantity and
weight are clamped to zero when negative, all strings stored verbatim. -/
def PhysicalProduct.mk (sku name : String) (price : ℚ) (quantity : ℤ)
    (category : String) (weight : ℚ) (supplier : String) : Product :=
  { sku := sku, name := name,
    price := if price ≥ 0 then price else 0,
    quantity := if quantity ≥ 0 then quantity else 0,
    category := category,
    variant := .physical (if weight ≥ 0 then weight else 0) supplier }

/-- The parameterized DigitalProduct constructor. -/
def DigitalProduct.mk (sku name : String) (price : ℚ) (quantity : ℤ)
    (category : String) (downloadLink : String) (fileSizeMB : ℚ)
    (licenseType : String) : Product :=
  { sku := sku, name := name,
    price := if price ≥ 0 then price else 0,
    quantity := if quantity ≥ 0 then quantity else 0,
    category := category,
    variant := .digital downloadLink (if fileSizeMB ≥ 0 then fileSizeMB else 0)
      licenseType }

/-- The PhysicalProduct default constructor: base initialization (category
set to General) followed by setCategory with the string Physical. -/
def PhysicalProduct.defaultProduct : Product :=
  Product.setCategory (Product.defaultBase (.physical 0 "Unknown")) ("Physical")

/-- The DigitalProduct default constructor: base initialization followed by
setCategory with the string Digital. -/
def DigitalProduct.defaultProduct : Product :=
  Product.setCategory (Product.defaultBase (.digital ("") 0 ("Single"))) ("Digital")

/-! ## The stringstream model used by fromCSV

A stringstream is the remaining characters together with the eof and fail
flags.  Every operation first runs a sentry check: if the stream already
has fail or eof set, the operation does nothing except set the fail flag
and leaves the output variable untouched.  Output variables that are never
written (a numeric extraction skipped because the stream had already
failed) are indeterminate in C++ (the locals are uninitialized); such
reads are modelled by leaving an Option at none, and a construction from
an indeterminate value yields no record. -/

structure SS : Type where
  rest : List Char
  eofb : Bool
  failb : Bool
deriving DecidableEq

/-- Whitespace for the default C locale (what operator>> skips). -/
def isSpaceC (c : Char) : Bool :=
  c == ' ' || c == '\t' || c == '\n' || c == '\r' || c == '\x0b' || c == '\x0c'

/-- std::getline(ss, str, c): on a good stream, erase str and read up to
the delimiter (consumed, not stored); hitting end of input sets eof, and
extracting no characters at all additionally sets fail. -/
def getlineC (s : SS) (cur : List Char) : SS × List Char :=
  if s.failb || s.eofb then ({ s with failb := true }, cur)
  else
    let pre := s.rest.takeWhile (fun c => c != ',')
    let post := s.rest.dropWhile (fun c => c != ',')
    if post.isEmpty then (⟨[], true, pre.isEmpty⟩, pre)
    else (⟨post.tail, false, false⟩, pre)

/-- std::getline(ss, str) with the default newline delimiter (the final
field of each variant consumes the rest of the line). -/
def getlineEOL (s : SS) (cur : List Char) : SS × List Char :=
  if s.failb || s.eofb then ({ s with failb := true }, cur)
  else
    let pre := s.rest.takeWhile (fun c => c != '\n')
    let post := s.rest.dropWhile (fun c => c != '\n')
    if post.isEmpty then (⟨[], true, pre.isEmpty⟩, pre)
    else (⟨post.tail, false, false⟩, pre)

/-- ss.ignore(1): skip one character; at end of input set eof only. -/
def ignore1 (s : SS) : SS :=
  if s.failb || s.eofb then { s with failb := true }
  else if s.rest.isEmpty then { s with eofb := true }
  else { s with rest := s.rest.tail }

/-- Optional leading sign of a numeric token. -/
def parseSign (r : List Char) : Bool × List Char :=
  if r.head? = some '-' then (true, r.tail)
  else if r.head? = some '+' then (false, r.tail)
  else (false, r)

/-- Optional exponent tail of a floating-point token: sign and at least
one digit (none when the digits are missing, in which case the exponent
marker is not consumed, as strtod backtracks). -/
def parseExpPart (t : List Char) : Option (ℤ × List Char) :=
  let (negE, t1) := parseSign t
  let ds := t1.takeWhile Char.isDigit
  if ds.isEmpty then none
  else some (if negE then -(charsVal ds : ℤ) else (charsVal ds : ℤ),
    t1.dropWhile Char.isDigit)

/-- The floating-point token grammar accepted by operator>> on a double:
optional sign, digits with an optional fractional part (at least one digit
overall), and an optional exponent.  Returns the value and the remaining
characters, or none when no number is present. -/
def parseDoubleTok (r : List Char) : Option (ℚ × List Char) :=
  let (neg, r1) := parseSign r
  let d1 := r1.takeWhile Char.isDigit
  let r2 := r1.dropWhile Char.isDigit
  let d2 := if r2.head? = some '.' then r2.tail.takeWhile Char.isDigit else []
  let r3 := if r2.head? = some '.' then r2.tail.dropWhile Char.isDigit else r2
  if d1.isEmpty && d2.isEmpty then none
  else
    let mant : ℚ := (charsVal d1 : ℚ) + (charsVal d2 : ℚ) / (10 : ℚ) ^ d2.length
    let er : ℤ × List Char :=
      if r3.head? = some 'e' ∨ r3.head? = some 'E' then
        match parseExpPart r3.tail with
        | some (e, r') => (e, r')
        | none => (0, r3)
      else (0, r3)
    let v0 := if 0 ≤ er.1 then mant * (10 : ℚ) ^ er.1.toNat
      else mant / (10 : ℚ) ^ (-er.1).toNat
    some (if neg then -v0 else v0, er.2)

/-- The integer token grammar accepted by operator>> on an int: optional
sign and at least one digit. -/
def parseIntTok (r : List Char) : Option (ℤ × List Char) :=
  let (neg, r1) := parseSign r
  let ds := r1.takeWhile Char.isDigit
  if ds.isEmpty then none
  else some (if neg then -(charsVal ds : ℤ) else (charsVal ds : ℤ),
    r1.dropWhile Char.isDigit)

/-- ss >> (double): sentry (fails on a bad stream or when skipping
whitespace exhausts the input, leaving the variable untouched), then
extraction: on success the value is stored and eof is set only when the
token ran to the end of input; on failure zero is stored and fail is set
(C++11 semantics).  How many characters a failed extraction consumed does
not matter downstream (every later operation fails its sentry), so the
model leaves them unconsumed. -/
def readDouble (s : SS) (cur : Option ℚ) : SS × Option ℚ :=
  if s.failb || s.eofb then ({ s with failb := true }, cur)
  else
    let r := s.rest.dropWhile isSpaceC
    if r.isEmpty then (⟨[], true, true⟩, cur)
    else
      match parseDoubleTok r with
      | some (v, r4) => (⟨r4, r4.isEmpty, false⟩, some v)
      | none => (⟨r, false, true⟩, some 0)

/-- ss >> (int), analogous to readDouble. -/
def readInt (s : SS) (cur : Option ℤ) : SS × Option ℤ :=
  if s.failb || s.eofb then ({ s with failb := true }, cur)
  else
    let r := s.rest.dropWhile isSpaceC
    if r.isEmpty then (⟨[], true, true⟩, cur)
    else
      match parseIntTok r with
      | some (v, r4) => (⟨r4, r4.isEmpty, false⟩, some v)
      | none => (⟨r, false, true⟩, some 0)

/-! ## The CSV codec -/

/-- Product::toCSV composed with the variant override: the leading type
tag, base fields, then the variant fields, all comma-joined exactly as the
string concatenation in the source builds them. -/
def Product.toCSV (p : Product) : List Char :=
  match p.variant with
  | .physical weight supplier =>
      "Physical".data ++ ',' :: p.sku.data ++ ',' :: p.name.data ++
        ',' :: fmt6 p.price ++ ',' :: intChars p.quantity ++
        ',' :: p.category.data ++ ',' :: fmt6 weight ++ ',' :: supplier.data
  | .digital link size lic =>
      "Digital".data ++ ',' :: p.sku.data ++ ',' :: p.name.data ++
        ',' :: fmt6 p.price ++ ',' :: intChars p.quantity ++
        ',' :: p.category.data ++ ',' :: link.data ++ ',' :: fmt6 size ++
        ',' :: lic.data

/-- PhysicalProduct::fromCSV: the exact sequence of stream operations of
the source (three getline fields, price, ignored comma, quantity, ignored
comma, category, weight, ignored comma, supplier to end of line), ending
in the parameterized constructor.  A construction from an indeterminate
numeric local (undefined behavior in the source) yields none. -/
def PhysicalProduct.fromCSV (line : List Char) : Option Product :=
  let r0 := getlineC ⟨line, false, false⟩ []
  let r1 := getlineC r0.1 []
  let r2 := getlineC r1.1 []
  let r3 := readDouble r2.1 none
  let r4 := readInt (ignore1 r3.1) none
  let r5 := getlineC (ignore1 r4.1) []
  let r6 := readDouble r5.1 none
  let r7 := getlineEOL (ignore1 r6.1) []
  match r3.2, r4.2, r6.2 with
  | some price, some quantity, some weight =>
      some (PhysicalProduct.mk (String.mk r1.2) (String.mk r2.2) price quantity
        (String.mk r5.2) weight (String.mk r7.2))
  | _, _, _ => none

/-- DigitalProduct::fromCSV, analogous (link field between category and
file size, license to end of line). -/
def DigitalProduct.fromCSV (line : List Char) : Option Product :=
  let r0 := getlineC ⟨line, false, false⟩ []
  let r1 := getlineC r0.1 []
  let r2 := getlineC r1.1 []
  let r3 := readDouble r2.1 none
  let r4 := readInt (ignore1 r3.1) none
  let r5 := getlineC (ignore1 r4.1) []
  let r6 := getlineC r5.1 []
  let r7 := readDouble r6.1 none
  let r8 := getlineEOL (ignore1 r7.1) []
  match r3.2, r4.2, r7.2 with
  | some price, some quantity, some size =>
      some (DigitalProduct.mk (String.mk r1.2) (String.mk r2.2) price quantity
        (String.mk r5.2) (String.mk r6.2) size (String.mk r8.2))
  | _, _, _ => none

/-- line.substr(0, line.find(comma)): the leading type tag. -/
def typeTag (line : List Char) : List Char := line.takeWhile (fun c => c != ',')

/-- The variant dispatch of Inventory::loadFromFile: an unrecognized type
tag produces no record. -/
def fromCSVLine (line : List Char) : Option Product :=
  if typeTag line = "Physical".data then PhysicalProduct.fromCSV line
  else if typeTag line = "Digital".data then DigitalProduct.fromCSV line
  else none

/-! ## The Inventory store

The std::vector of owned records is a list of products and the std::map
sku index is an association list with overwriting insert; since every
claim observes the index only through lookup, the key ordering of std::map
is immaterial.  The C++ containers hold pointers to the same heap objects;
under the unique-sku invariant a mutation through the looked-up pointer is
modelled by updating the unique matching entry in each container. -/

/-- std::map::find on the sku index. -/
def mapLookup : List (String × Product) → String → Option Product
  | [], _ => none
  | (k', v) :: t, k => if k' = k then some v else mapLookup t k

/-- skuIndex[k] = v: overwrite the key if present, otherwise insert. -/
def mapInsert : List (String × Product) → String → Product →
    List (String × Product)
  | [], k, v => [(k, v)]
  | (k', v') :: t, k, v =>
      if k' = k then (k', v) :: t else (k', v') :: mapInsert t k v

structure Inventory : Type where
  products : List Product
  skuIndex : List (String × Product)
deriving DecidableEq

namespace Inventory

/-- A freshly constructed (or cleared) inventory. -/
def empty : Inventory := ⟨[], []⟩

/-- Inventory::rebuildIndex: clear the map, then assign every product of
the vector under its sku.  (The vector never holds null: addProduct
rejects null and is the only way records enter it.) -/
def rebuildIndexFn (ps : List Product) : List (String × Product) :=
  ps.foldl (fun m p => mapInsert m p.sku p) []

/-- Inventory::addProduct: reject null, reject an already-indexed sku,
otherwise append to the vector and index by sku. -/
def addProduct (inv : Inventory) (product : Option Product) :
    Bool × Inventory :=
  match product with
  | none => (false, inv)
  | some p =>
      if (mapLookup inv.skuIndex p.sku).isSome then (false, inv)
      else (true, ⟨inv.products ++ [p], mapInsert inv.skuIndex p.sku p⟩)

/-- Inventory::getProduct: lookup through the sku index. -/
def getProduct (inv : Inventory) (sku : String) : Option Product :=
  mapLookup inv.skuIndex sku

/-- The field updates Inventory::updateProduct applies to the record it
found: empty name, negative price and negative quantity each mean keep
the current value. -/
def applyUpdate (name : String) (price : ℚ) (quantity : ℤ) (p : Product) :
    Product :=
  let p1 := if name ≠ "" then p.setName name else p
  let p2 := if price ≥ 0 then (p1.setPrice price).2 else p1
  if quantity ≥ 0 then (p2.setQuantity quantity).2 else p2

/-- Inventory::updateProduct: fail when the sku is not indexed; otherwise
mutate the found record in place (the mutation is visible through both
containers, which alias the same object). -/
def updateProduct (inv : Inventory) (sku : String) (name : String)
    (price : ℚ) (quantity : ℤ) : Bool × Inventory :=
  match mapLookup inv.skuIndex sku with
  | none => (false, inv)
  | some _ =>
      (true,
        ⟨inv.products.map (fun p =>
            if p.sku = sku then applyUpdate name price quantity p else p),
         inv.skuIndex.map (fun kv =>
            if kv.2.sku = sku then (kv.1, applyUpdate name price quantity kv.2)
            else kv)⟩)

/-- One iteration of the Inventory::loadFromFile line loop: skip blank
lines and comment lines starting with the hash character, dispatch on the
leading type tag, and add any decoded record (a duplicate sku is silently
dropped by addProduct). -/
def processLine (inv : Inventory) (line : String) : Inventory :=
  if line.data = [] ∨ line.data.head? = some '#' then inv
  else
    match fromCSVLine line.data with
    | some p => (inv.addProduct (some p)).2
    | none => inv

/-- Inventory::loadFromFile with the file contents supplied explicitly:
none means the file could not be opened (return failure before touching
any state); otherwise the store is cleared and the lines are processed in
order. -/
def loadFromFile (inv : Inventory) (file : Option (List String)) :
    Bool × Inventory :=
  match file with
  | none => (false, inv)
  | some lines => (true, lines.foldl processLine Inventory.empty)

/-- The store reached by a sequence of addProduct calls on a fresh
inventory (none models a null pointer argument). -/
def runAdds (reqs : List (Option Product)) : Inventory :=
  reqs.foldl (fun s r => (s.addProduct r).2) Inventory.empty

/-- No two records of the sequence share a sku. -/
def NodupSkus (ps : List Product) : Prop := (ps.map Product.sku).Nodup

/-- The representation invariant of reachable stores: unique skus and an
index that is exactly the rebuilt index of the sequence. -/
def WF (inv : Inventory) : Prop :=
  NodupSkus inv.products ∧ inv.skuIndex = rebuildIndexFn inv.products

/-- The contract of std::sort with a strict comparator lt: the result is
some permutation of the input in which no later element is strictly less
than an earlier one.  Which permutation appears among tied elements is
not specified. -/
def IsSortResult (lt : Product → Product → Prop) (l out : List Product) :
    Prop :=
  l.Perm out ∧ out.Pairwise (fun a b => ¬ lt b a)

/-- The comparator of Inventory::sortBySku. -/
def skuLt (a b : Product) : Prop := a.sku < b.sku

/-- The comparator of Inventory::sortByName. -/
def nameLt (a b : Product) : Prop := a.name < b.name

/-- The comparator of Inventory::sortByPrice. -/
def priceLt (a b : Product) : Prop := a.price < b.price

/-- The comparator of Inventory::sortByQuantity. -/
def quantityLt (a b : Product) : Prop := a.quantity < b.quantity

/-- The comparator of Inventory::sortByValue (descending by value). -/
def valueGt (a b : Product) : Prop := a.calculateValue > b.calculateValue

/-- A possible outcome of a sort operation with comparator lt followed by
rebuildIndex, as the source performs after every sort. -/
def SortStep (lt : Product → Product → Prop) (inv inv' : Inventory) : Prop :=
  IsSortResult lt inv.products inv'.products ∧
    inv'.skuIndex = rebuildIndexFn inv'.products

/-- Inventory::sortBySku as a relation between the store before and after. -/
def SortBySku (inv inv' : Inventory) : Prop := SortStep skuLt inv inv'

/-- Inventory::sortByName as a relation. -/
def SortByName (inv inv' : Inventory) : Prop := SortStep nameLt inv inv'

/-- Inventory::sortByPrice as a relation. -/
def SortByPrice (inv inv' : Inventory) : Prop := SortStep priceLt inv inv'

/-- Inventory::sortByQuantity as a relation. -/
def SortByQuantity (inv inv' : Inventory) : Prop := SortStep quantityLt inv inv'

/-- Inventory::sortByValue as a relation. -/
def SortByValue (inv inv' : Inventory) : Prop := SortStep valueGt inv inv'

end Inventory

instance (ps : List Product) : Decidable (Inventory.NodupSkus ps) :=
  inferInstanceAs (Decidable (ps.map Product.sku).Nodup)

instance : DecidableRel Inventory.skuLt := fun a b =>
  inferInstanceAs (Decidable (a.sku < b.sku))

instance : DecidableRel Inventory.nameLt := fun a b =>
  inferInstanceAs (Decidable (a.name < b.name))

instance : DecidableRel Inventory.priceLt := fun a b =>
  inferInstanceAs (Decidable (a.price < b.price))

instance : DecidableRel Inventory.quantityLt := fun a b =>
  inferInstanceAs (Decidable (a.quantity < b.quantity))

instance : DecidableRel Inventory.valueGt := fun a b =>
  inferInstanceAs (Decidable (b.calculateValue < a.calculateValue))

/-! ## Lemmas about the sku index -/

theorem mapLookup_mapInsert (m : List (String × Product)) (k k' : String)
    (v : Product) :
    mapLookup (mapInsert m k v) k' = if k = k' then some v else mapLookup m k' := by
  induction m with
  | nil => simp [mapInsert, mapLookup]
  | cons kv t ih =>
    obtain ⟨k0, v0⟩ := kv
    by_cases h0 : k0 = k
    · subst h0
      simp only [mapInsert, if_pos rfl, mapLookup]
      by_cases h1 : k0 = k' <;> simp [h1]
    · simp only [mapInsert, if_neg h0, mapLookup]
      by_cases h1 : k0 = k'
      · subst h1
        have : ¬ k = k0 := fun h => h0 h.symm
        simp [this]
      · simp [h1, ih]

theorem foldl_ins_lookup_notmem (ps : List Product)
    (acc : List (String × Product)) (k : String)
    (hk : k ∉ ps.map Product.sku) :
    mapLookup (ps.foldl (fun m p => mapInsert m p.sku p) acc) k
      = mapLookup acc k := by
  induction ps generalizing acc with
  | nil => rfl
  | cons q t ih =>
    simp only [List.map_cons, List.mem_cons, not_or] at hk
    simp only [List.foldl_cons]
    rw [ih _ hk.2, mapLookup_mapInsert, if_neg (fun h => hk.1 h.symm)]

theorem foldl_ins_lookup_mem (ps : List Product)
    (acc : List (String × Product)) (p : Product)
    (hnd : Inventory.NodupSkus ps) (hp : p ∈ ps) :
    mapLookup (ps.foldl (fun m p => mapInsert m p.sku p) acc) p.sku = some p := by
  induction ps generalizing acc with
  | nil => cases hp
  | cons q t ih =>
    unfold Inventory.NodupSkus at hnd
    simp only [List.map_cons, List.nodup_cons] at hnd
    rcases List.mem_cons.mp hp with rfl | hpt
    · simp only [List.foldl_cons]
      rw [foldl_ins_lookup_notmem t _ p.sku hnd.1, mapLookup_mapInsert, if_pos rfl]
    · simp only [List.foldl_cons]
      exact ih _ hnd.2 hpt

theorem foldl_ins_lookup_isSome (ps : List Product)
    (acc : List (String × Product)) (k : String)
    (hk : k ∈ ps.map Product.sku) :
    (mapLookup (ps.foldl (fun m p => mapInsert m p.sku p) acc) k).isSome := by
  induction ps generalizing acc with
  | nil => cases hk
  | cons q t ih =>
    simp only [List.foldl_cons]
    by_cases hkt : k ∈ t.map Product.sku
    · exact ih _ hkt
    · have hq : q.sku = k := by
        rw [List.map_cons, List.mem_cons] at hk
        rcases hk with h | h
        · exact h.symm
        · exact absurd h hkt
      rw [foldl_ins_lookup_notmem t _ k hkt, mapLookup_mapInsert, if_pos hq]
      rfl

theorem foldl_ins_lookup_some (ps : List Product)
    (acc : List (String × Product)) (k : String) (p : Product)
    (h : mapLookup (ps.foldl (fun m p => mapInsert m p.sku p) acc) k = some p) :
    (p ∈ ps ∧ p.sku = k) ∨ mapLookup acc k = some p := by
  induction ps generalizing acc with
  | nil => exact Or.inr h
  | cons q t ih =>
    simp only [List.foldl_cons] at h
    rcases ih _ h with ⟨hm, hs⟩ | hacc
    · exact Or.inl ⟨List.mem_cons_of_mem _ hm, hs⟩
    · rw [mapLookup_mapInsert] at hacc
      by_cases hq : q.sku = k
      · rw [if_pos hq] at hacc
        cases hacc
        exact Or.inl ⟨List.mem_cons_self _ _, hq⟩
      · rw [if_neg hq] at hacc
        exact Or.inr hacc

theorem rebuild_lookup_mem {ps : List Product} {p : Product}
    (hnd : Inventory.NodupSkus ps) (hp : p ∈ ps) :
    mapLookup (Inventory.rebuildIndexFn ps) p.sku = some p :=
  foldl_ins_lookup_mem ps [] p hnd hp

theorem rebuild_lookup_isSome_iff (ps : List Product) (k : String) :
    (mapLookup (Inventory.rebuildIndexFn ps) k).isSome
      ↔ k ∈ ps.map Product.sku := by
  constructor
  · intro h
    by_contra hk
    rw [Inventory.rebuildIndexFn, foldl_ins_lookup_notmem ps [] k hk] at h
    simp [mapLookup] at h
  · exact foldl_ins_lookup_isSome ps []  k

theorem rebuild_lookup_some {ps : List Product} {k : String} {p : Product}
    (h : mapLookup (Inventory.rebuildIndexFn ps) k = some p) :
    p ∈ ps ∧ p.sku = k := by
  rcases foldl_ins_lookup_some ps [] k p h with h' | h'
  · exact h'
  · simp [mapLookup] at h'

/-! ## The invariant of reachable stores -/

theorem wf_empty : Inventory.WF Inventory.empty := by
  constructor
  · simp [Inventory.NodupSkus, Inventory.empty]
  · rfl

theorem wf_addProduct {inv : Inventory} (hwf : inv.WF)
    (r : Option Product) : (inv.addProduct r).2.WF := by
  obtain ⟨hnd, hidx⟩ := hwf
  match r with
  | none => exact ⟨hnd, hidx⟩
  | some p =>
    by_cases hs : (mapLookup inv.skuIndex p.sku).isSome
    · simp only [Inventory.addProduct, if_pos hs]
      exact ⟨hnd, hidx⟩
    · simp only [Inventory.addProduct, if_neg hs]
      have hmem : p.sku ∉ inv.products.map Product.sku := by
        intro hmem
        exact hs (by rw [hidx]; exact (rebuild_lookup_isSome_iff _ _).mpr hmem)
      constructor
      · unfold Inventory.NodupSkus
        simp only [List.map_append, List.map_cons, List.map_nil]
        rw [List.nodup_append]
        refine ⟨hnd, List.nodup_singleton _, ?_⟩
        intro a ha hb
        simp only [List.mem_singleton] at hb
        subst hb
        exact hmem ha
      · rw [hidx]
        simp [Inventory.rebuildIndexFn, List.foldl_append]

theorem wf_foldl_adds (reqs : List (Option Product)) (inv : Inventory)
    (hwf : inv.WF) :
    (reqs.foldl (fun s r => (s.addProduct r).2) inv).WF := by
  induction reqs generalizing inv with
  | nil => exact hwf
  | cons r t ih => exact ih _ (wf_addProduct hwf r)

theorem wf_runAdds (reqs : List (Option Product)) :
    (Inventory.runAdds reqs).WF :=
  wf_foldl_adds reqs Inventory.empty wf_empty

theorem add_existing_fails {inv : Inventory} (hwf : inv.WF) {p : Product}
    (hmem : p.sku ∈ inv.products.map Product.sku) :
    inv.addProduct (some p) = (false, inv) := by
  have hs : (mapLookup inv.skuIndex p.sku).isSome := by
    rw [hwf.2]
    exact (rebuild_lookup_isSome_iff _ _).mpr hmem
  simp [Inventory.addProduct, hs]

/-! ## Character and scanning lemmas for the codec proofs -/

/-- Characters produced by the numeric renderers. -/
def IsDigitChar (c : Char) : Prop := ∃ d, d < 10 ∧ c = dchar d

theorem natToChars_form (n : ℕ) : ∀ c ∈ natToChars n, IsDigitChar c := by
  by_cases h : n = 0
  · subst h
    intro c hc
    rw [show natToChars 0 = [dchar 0] from rfl, List.mem_singleton] at hc
    exact ⟨0, by norm_num, hc⟩
  · simp only [natToChars, if_neg h]
    intro c hc
    rw [List.mem_reverse, List.mem_map] at hc
    obtain ⟨d, hd, rfl⟩ := hc
    exact ⟨d, Nat.digits_lt_base (by norm_num) hd, rfl⟩

theorem frac6_form (n : ℕ) : ∀ c ∈ frac6 n, IsDigitChar c := by
  simp only [frac6, List.mem_cons, List.not_mem_nil, or_false]
  rintro c (rfl | rfl | rfl | rfl | rfl | rfl) <;>
    exact ⟨_, Nat.mod_lt _ (by norm_num), rfl⟩

theorem digitChar_facts {c : Char} (h : IsDigitChar c) :
    c.isDigit = true ∧ isSpaceC c = false ∧ (c != ',') = true ∧
      (c != '\n') = true ∧ c ≠ '-' ∧ c ≠ '+' ∧ c ≠ '.' ∧ c ≠ 'e' ∧ c ≠ 'E' := by
  obtain ⟨d, hd, rfl⟩ := h
  interval_cases d <;> exact ⟨by decide, by decide, by decide, by decide,
    by decide, by decide, by decide, by decide, by decide⟩

theorem takeWhile_append_of (p : Char → Bool) (xs : List Char) (y : Char)
    (r : List Char) (hxs : ∀ x ∈ xs, p x = true) (hy : p y = false) :
    (xs ++ y :: r).takeWhile p = xs := by
  induction xs with
  | nil => simp [List.takeWhile_cons, hy]
  | cons a t ih =>
    have ha : p a = true := hxs a (List.mem_cons_self _ _)
    have ht : ∀ x ∈ t, p x = true := fun x hx => hxs x (List.mem_cons_of_mem _ hx)
    simp [List.takeWhile_cons, ha, ih ht]

theorem dropWhile_append_of (p : Char → Bool) (xs : List Char) (y : Char)
    (r : List Char) (hxs : ∀ x ∈ xs, p x = true) (hy : p y = false) :
    (xs ++ y :: r).dropWhile p = y :: r := by
  induction xs with
  | nil => simp [List.dropWhile_cons, hy]
  | cons a t ih =>
    have ha : p a = true := hxs a (List.mem_cons_self _ _)
    have ht : ∀ x ∈ t, p x = true := fun x hx => hxs x (List.mem_cons_of_mem _ hx)
    simp [List.dropWhile_cons, ha, ih ht]

theorem takeWhile_all_of (p : Char → Bool) (xs : List Char)
    (hxs : ∀ x ∈ xs, p x = true) : xs.takeWhile p = xs := by
  induction xs with
  | nil => rfl
  | cons a t ih =>
    have ha : p a = true := hxs a (List.mem_cons_self _ _)
    have ht : ∀ x ∈ t, p x = true := fun x hx => hxs x (List.mem_cons_of_mem _ hx)
    simp [List.takeWhile_cons, ha, ih ht]

theorem dropWhile_all_of (p : Char → Bool) (xs : List Char)
    (hxs : ∀ x ∈ xs, p x = true) : xs.dropWhile p = [] := by
  induction xs with
  | nil => rfl
  | cons a t ih =>
    have ha : p a = true := hxs a (List.mem_cons_self _ _)
    have ht : ∀ x ∈ t, p x = true := fun x hx => hxs x (List.mem_cons_of_mem _ hx)
    simp [List.dropWhile_cons, ha, ih ht]

theorem mem_no_comma {xs : List Char} (h : (',' : Char) ∉ xs) :
    ∀ x ∈ xs, (x != ',') = true := by
  intro x hx
  rw [bne_iff_ne]
  exact fun heq => h (heq ▸ hx)

/-! ## Step lemmas for the stream operations on well-formed input -/

theorem getlineC_step (xs rest cur : List Char) (h : (',' : Char) ∉ xs) :
    getlineC ⟨xs ++ ',' :: rest, false, false⟩ cur = (⟨rest, false, false⟩, xs) := by
  have h1 : (xs ++ ',' :: rest).takeWhile (fun c => c != ',') = xs :=
    takeWhile_append_of _ xs ',' rest (mem_no_comma h) (by decide)
  have h2 : (xs ++ ',' :: rest).dropWhile (fun c => c != ',') = ',' :: rest :=
    dropWhile_append_of _ xs ',' rest (mem_no_comma h) (by decide)
  simp [getlineC, h1, h2]

theorem getlineEOL_step (xs cur : List Char) (h : ('\n' : Char) ∉ xs) :
    getlineEOL ⟨xs, false, false⟩ cur = (⟨[], true, xs.isEmpty⟩, xs) := by
  have hxs : ∀ x ∈ xs, (x != '\n') = true := by
    intro x hx
    rw [bne_iff_ne]
    exact fun heq => h (heq ▸ hx)
  have h1 : xs.takeWhile (fun c => c != '\n') = xs := takeWhile_all_of _ xs hxs
  have h2 : xs.dropWhile (fun c => c != '\n') = [] := dropWhile_all_of _ xs hxs
  simp [getlineEOL, h1, h2]

theorem ignore1_comma (rest : List Char) :
    ignore1 ⟨',' :: rest, false, false⟩ = ⟨rest, false, false⟩ := by
  simp [ignore1]

theorem parseSign_not_sign {c : Char} (t : List Char) (h1 : c ≠ '-')
    (h2 : c ≠ '+') : parseSign (c :: t) = (false, c :: t) := by
  simp [parseSign, h1, h2]

theorem parseDoubleTok_fmt6nn (x : ℚ) (rest : List Char) (hx : 0 ≤ x) :
    parseDoubleTok (fmt6nn x ++ ',' :: rest) = some (round6 x, ',' :: rest) := by
  have hfp : (round6num x).toNat % 1000000 < 1000000 := Nat.mod_lt _ (by norm_num)
  have hshape : fmt6nn x ++ ',' :: rest
      = natToChars ((round6num x).toNat / 1000000) ++
          '.' :: (frac6 ((round6num x).toNat % 1000000) ++ ',' :: rest) := by
    simp [fmt6nn, List.append_assoc]
  have hdig := natToChars_all_digit ((round6num x).toNat / 1000000)
  have hsign : parseSign (natToChars ((round6num x).toNat / 1000000) ++
      '.' :: (frac6 ((round6num x).toNat % 1000000) ++ ',' :: rest))
      = (false, natToChars ((round6num x).toNat / 1000000) ++
          '.' :: (frac6 ((round6num x).toNat % 1000000) ++ ',' :: rest)) := by
    obtain ⟨c, t, hct⟩ :=
      List.exists_cons_of_ne_nil (natToChars_ne_nil ((round6num x).toNat / 1000000))
    have hc := digitChar_facts
      (natToChars_form _ c (by rw [hct]; exact List.mem_cons_self _ _))
    rw [hct, List.cons_append]
    exact parseSign_not_sign _ hc.2.2.2.2.1 hc.2.2.2.2.2.1
  have htake1 := takeWhile_append_of Char.isDigit _ '.'
    (frac6 ((round6num x).toNat % 1000000) ++ ',' :: rest) hdig (by decide)
  have hdrop1 := dropWhile_append_of Char.isDigit _ '.'
    (frac6 ((round6num x).toNat % 1000000) ++ ',' :: rest) hdig (by decide)
  have htake2 := takeWhile_append_of Char.isDigit
    (frac6 ((round6num x).toNat % 1000000)) ',' rest
    (frac6_all_digit _) (by decide)
  have hdrop2 := dropWhile_append_of Char.isDigit
    (frac6 ((round6num x).toNat % 1000000)) ',' rest
    (frac6_all_digit _) (by decide)
  have hne : (natToChars ((round6num x).toNat / 1000000)).isEmpty = false := by
    cases hh : natToChars ((round6num x).toNat / 1000000) with
    | nil => exact absurd hh (natToChars_ne_nil _)
    | cons a t => rfl
  rw [hshape]
  simp only [parseDoubleTok, hsign, htake1, hdrop1, htake2, hdrop2,
    List.head?_cons, Option.some.injEq, List.tail_cons, hne,
    Bool.false_and, Bool.false_eq_true, if_false, eq_self_iff_true, if_true,
    eq_false (by decide : ((',' : Char) ≠ 'e')),
    eq_false (by decide : ((',' : Char) ≠ 'E')), or_self, or_false, false_or,
    Prod.fst, Prod.snd, eq_true (le_refl (0 : ℤ)), Int.toNat_zero, pow_zero,
    mul_one, charsVal_natToChars, charsVal_frac6 hfp, frac6_length]
  refine Prod.ext ?_ rfl
  show ((((round6num x).toNat / 1000000 : ℕ) : ℚ) +
      (((round6num x).toNat % 1000000 : ℕ) : ℚ) / (10 : ℚ) ^ (6 : ℕ)) = round6 x
  have hmod : 1000000 * ((round6num x).toNat / 1000000) +
      (round6num x).toNat % 1000000 = (round6num x).toNat :=
    Nat.div_add_mod _ _
  have hcastQ : (((round6num x).toNat : ℕ) : ℚ) = ((round6num x : ℤ) : ℚ) := by
    exact_mod_cast Int.toNat_of_nonneg (round6num_nonneg hx)
  have key : ((round6num x : ℤ) : ℚ)
      = 1000000 * (((round6num x).toNat / 1000000 : ℕ) : ℚ)
        + (((round6num x).toNat % 1000000 : ℕ) : ℚ) := by
    rw [← hcastQ]
    exact_mod_cast hmod.symm
  unfold round6
  rw [show ((10 : ℚ) ^ (6 : ℕ)) = 1000000 by norm_num, key]
  ring

theorem readDouble_step (x : ℚ) (rest : List Char) (cur : Option ℚ)
    (hx : 0 ≤ x) :
    readDouble ⟨fmt6 x ++ ',' :: rest, false, false⟩ cur
      = (⟨',' :: rest, false, false⟩, some (round6 x)) := by
  have hfmt : fmt6 x = fmt6nn x := if_neg (not_lt.mpr hx)
  obtain ⟨c, t0, hct⟩ :=
    List.exists_cons_of_ne_nil (natToChars_ne_nil ((round6num x).toNat / 1000000))
  have hcd := digitChar_facts
    (natToChars_form _ c (by rw [hct]; exact List.mem_cons_self _ _))
  have hshape : fmt6 x ++ ',' :: rest
      = c :: (t0 ++ '.' :: frac6 ((round6num x).toNat % 1000000) ++ ',' :: rest) := by
    rw [hfmt]
    show (natToChars _ ++ _) ++ _ = _
    rw [hct]
    simp [List.append_assoc]
  have hdrop : (fmt6 x ++ ',' :: rest).dropWhile isSpaceC
      = fmt6 x ++ ',' :: rest := by
    rw [hshape]
    simp [List.dropWhile_cons, hcd.2.1]
  have hparse : parseDoubleTok (fmt6 x ++ ',' :: rest)
      = some (round6 x, ',' :: rest) := by
    rw [hfmt]; exact parseDoubleTok_fmt6nn x rest hx
  have hnonempty : (fmt6 x ++ ',' :: rest).isEmpty = false := by
    rw [hshape]; rfl
  simp only [readDouble, Bool.or_self, Bool.false_eq_true, if_false, hdrop,
    hnonempty, hparse, List.isEmpty_cons]

theorem parseIntTok_intChars (q : ℤ) (rest : List Char) (hq : 0 ≤ q) :
    parseIntTok (intChars q ++ ',' :: rest) = some (q, ',' :: rest) := by
  have hiq : intChars q = natToChars q.toNat := if_neg (not_lt.mpr hq)
  have hdig := natToChars_all_digit q.toNat
  have hsign : parseSign (natToChars q.toNat ++ ',' :: rest)
      = (false, natToChars q.toNat ++ ',' :: rest) := by
    obtain ⟨c, t, hct⟩ := List.exists_cons_of_ne_nil (natToChars_ne_nil q.toNat)
    have hc := digitChar_facts
      (natToChars_form _ c (by rw [hct]; exact List.mem_cons_self _ _))
    rw [hct, List.cons_append]
    exact parseSign_not_sign _ hc.2.2.2.2.1 hc.2.2.2.2.2.1
  have htake := takeWhile_append_of Char.isDigit (natToChars q.toNat) ',' rest
    hdig (by decide)
  have hdrop := dropWhile_append_of Char.isDigit (natToChars q.toNat) ',' rest
    hdig (by decide)
  have hne : (natToChars q.toNat).isEmpty = false := by
    cases hh : natToChars q.toNat with
    | nil => exact absurd hh (natToChars_ne_nil _)
    | cons a t => rfl
  rw [hiq]
  simp only [parseIntTok, hsign, htake, hdrop, hne, Bool.false_eq_true,
    if_false, charsVal_natToChars]
  rw [Int.toNat_of_nonneg hq]

theorem readInt_step (q : ℤ) (rest : List Char) (cur : Option ℤ) (hq : 0 ≤ q) :
    readInt ⟨intChars q ++ ',' :: rest, false, false⟩ cur
      = (⟨',' :: rest, false, false⟩, some q) := by
  obtain ⟨c, t0, hct⟩ := List.exists_cons_of_ne_nil (natToChars_ne_nil q.toNat)
  have hcd := digitChar_facts
    (natToChars_form _ c (by rw [hct]; exact List.mem_cons_self _ _))
  have hiq : intChars q = natToChars q.toNat := if_neg (not_lt.mpr hq)
  have hshape : intChars q ++ ',' :: rest = c :: (t0 ++ ',' :: rest) := by
    rw [hiq, hct, List.cons_append]
  have hdrop : (intChars q ++ ',' :: rest).dropWhile isSpaceC
      = intChars q ++ ',' :: rest := by
    rw [hshape]
    simp [List.dropWhile_cons, hcd.2.1]
  have hnonempty : (intChars q ++ ',' :: rest).isEmpty = false := by
    rw [hshape]; rfl
  simp only [readInt, Bool.or_self, Bool.false_eq_true, if_false, hdrop,
    hnonempty, parseIntTok_intChars q rest hq, List.isEmpty_cons]

/-! ## Round-trip of the codec -/

/-- What decoding an encoded record reproduces: every field exactly,
except that each double went through the fixed six-decimal rendering. -/
def round6Rec (p : Product) : Product :=
  { p with
    price := round6 p.price,
    variant :=
      (match p.variant with
        | .physical w s => .physical (round6 w) s
        | .digital l sz lic => .digital l (round6 sz) lic) }

theorem physFromCSV_toCSV (p : Product) (w : ℚ) (s : String)
    (hv : p.variant = .physical w s)
    (hsku : (',' : Char) ∉ p.sku.data) (hname : (',' : Char) ∉ p.name.data)
    (hcat : (',' : Char) ∉ p.category.data) (hsupp : ('\n' : Char) ∉ s.data)
    (hp : 0 ≤ p.price) (hq : 0 ≤ p.quantity) (hw : 0 ≤ w) :
    PhysicalProduct.fromCSV p.toCSV = some (round6Rec p) := by
  have hcsv : p.toCSV = "Physical".data ++ ',' ::
      (p.sku.data ++ ',' :: (p.name.data ++ ',' :: (fmt6 p.price ++ ',' ::
        (intChars p.quantity ++ ',' :: (p.category.data ++ ',' ::
          (fmt6 w ++ ',' :: s.data)))))) := by
    simp only [Product.toCSV, hv]
    simp only [List.append_assoc, List.cons_append]
  rw [hcsv]
  simp only [PhysicalProduct.fromCSV,
    getlineC_step _ _ _ (by decide : (',' : Char) ∉ "Physical".data),
    getlineC_step _ _ _ hsku, getlineC_step _ _ _ hname,
    getlineC_step _ _ _ hcat,
    readDouble_step _ _ _ hp, ignore1_comma, readInt_step _ _ _ hq,
    readDouble_step _ _ _ hw, getlineEOL_step _ _ hsupp]
  simp only [PhysicalProduct.mk, if_pos (round6_nonneg hp), if_pos hq,
    if_pos (round6_nonneg hw)]
  simp only [round6Rec, hv]

theorem digFromCSV_toCSV (p : Product) (l : String) (sz : ℚ) (lic : String)
    (hv : p.variant = .digital l sz lic)
    (hsku : (',' : Char) ∉ p.sku.data) (hname : (',' : Char) ∉ p.name.data)
    (hcat : (',' : Char) ∉ p.category.data) (hlink : (',' : Char) ∉ l.data)
    (hlic : ('\n' : Char) ∉ lic.data)
    (hp : 0 ≤ p.price) (hq : 0 ≤ p.quantity) (hsz : 0 ≤ sz) :
    DigitalProduct.fromCSV p.toCSV = some (round6Rec p) := by
  have hcsv : p.toCSV = "Digital".data ++ ',' ::
      (p.sku.data ++ ',' :: (p.name.data ++ ',' :: (fmt6 p.price ++ ',' ::
        (intChars p.quantity ++ ',' :: (p.category.data ++ ',' ::
          (l.data ++ ',' :: (fmt6 sz ++ ',' :: lic.data))))))) := by
    simp only [Product.toCSV, hv]
    simp only [List.append_assoc, List.cons_append]
  rw [hcsv]
  simp only [DigitalProduct.fromCSV,
    getlineC_step _ _ _ (by decide : (',' : Char) ∉ "Digital".data),
    getlineC_step _ _ _ hsku, getlineC_step _ _ _ hname,
    getlineC_step _ _ _ hcat, getlineC_step _ _ _ hlink,
    readDouble_step _ _ _ hp, ignore1_comma, readInt_step _ _ _ hq,
    readDouble_step _ _ _ hsz, getlineEOL_step _ _ hlic]
  simp only [DigitalProduct.mk, if_pos (round6_nonneg hp), if_pos hq,
    if_pos (round6_nonneg hsz)]
  simp only [round6Rec, hv]

theorem typeTag_toCSV_physical (p : Product) (w : ℚ) (s : String)
    (hv : p.variant = .physical w s) : typeTag p.toCSV = "Physical".data := by
  have hcsv : p.toCSV = "Physical".data ++ ',' ::
      (p.sku.data ++ ',' :: (p.name.data ++ ',' :: (fmt6 p.price ++ ',' ::
        (intChars p.quantity ++ ',' :: (p.category.data ++ ',' ::
          (fmt6 w ++ ',' :: s.data)))))) := by
    simp only [Product.toCSV, hv]
    simp only [List.append_assoc, List.cons_append]
  rw [hcsv, typeTag]
  exact takeWhile_append_of _ _ _ _ (by decide) (by decide)

theorem typeTag_toCSV_digital (p : Product) (l : String) (sz : ℚ) (lic : String)
    (hv : p.variant = .digital l sz lic) : typeTag p.toCSV = "Digital".data := by
  have hcsv : p.toCSV = "Digital".data ++ ',' ::
      (p.sku.data ++ ',' :: (p.name.data ++ ',' :: (fmt6 p.price ++ ',' ::
        (intChars p.quantity ++ ',' :: (p.category.data ++ ',' ::
          (l.data ++ ',' :: (fmt6 sz ++ ',' :: lic.data))))))) := by
    simp only [Product.toCSV, hv]
    simp only [List.append_assoc, List.cons_append]
  rw [hcsv, typeTag]
  exact takeWhile_append_of _ _ _ _ (by decide) (by decide)

theorem fromCSVLine_toCSV (p : Product)
    (hsku : (',' : Char) ∉ p.sku.data) (hname : (',' : Char) ∉ p.name.data)
    (hcat : (',' : Char) ∉ p.category.data)
    (hp : 0 ≤ p.price) (hq : 0 ≤ p.quantity)
    (hvar : match p.variant with
      | .physical w s => 0 ≤ w ∧ ('\n' : Char) ∉ s.data
      | .digital l sz lic =>
          (',' : Char) ∉ l.data ∧ 0 ≤ sz ∧ ('\n' : Char) ∉ lic.data) :
    fromCSVLine p.toCSV = some (round6Rec p) := by
  cases hv : p.variant with
  | physical w s =>
    rw [hv] at hvar
    unfold fromCSVLine
    rw [typeTag_toCSV_physical p w s hv, if_pos rfl]
    exact physFromCSV_toCSV p w s hv hsku hname hcat hvar.2 hp hq hvar.1
  | digital l sz lic =>
    rw [hv] at hvar
    unfold fromCSVLine
    rw [typeTag_toCSV_digital p l sz lic hv,
      if_neg (by decide : ¬ ("Digital".data = "Physical".data)), if_pos rfl]
    exact digFromCSV_toCSV p l sz lic hv hsku hname hcat hvar.1 hvar.2.2 hp hq
      hvar.2.1

/-! # Claim theorems -/

/-- Claim C3: applyDiscount on a Physical product equals
price times (1 - pct/100) when pct lies in [0,100] and the unmodified
price otherwise; on a Digital product it equals
price times (1 - min(pct+5,50)/100) when pct lies in [0,100] (the range
check uses the original pct) and the unmodified price otherwise. -/
theorem c3_applyDiscount (p : Product) (pct : ℚ) :
    (p.getType = "Physical" →
      (0 ≤ pct → pct ≤ 100 →
        p.applyDiscount pct = p.price * (1 - pct / 100)) ∧
      ((pct < 0 ∨ 100 < pct) → p.applyDiscount pct = p.price)) ∧
    (p.getType = "Digital" →
      (0 ≤ pct → pct ≤ 100 →
        p.applyDiscount pct = p.price * (1 - min (pct + 5) 50 / 100)) ∧
      ((pct < 0 ∨ 100 < pct) → p.applyDiscount pct = p.price)) := by
  have hin : 0 ≤ pct → pct ≤ 100 → ¬ (pct < 0 ∨ pct > 100) := by
    intro h0 h1
    push_neg
    exact ⟨h0, h1⟩
  cases hv : p.variant with
  | physical w s =>
    have hty : p.getType = "Physical" := by simp [Product.getType, hv]
    refine ⟨fun _ => ⟨?_, ?_⟩, fun hd => absurd (hty.symm.trans hd) (by decide)⟩
    · intro h0 h1
      simp only [Product.applyDiscount, hv]
      rw [if_neg (hin h0 h1)]
    · intro h
      simp only [Product.applyDiscount, hv]
      rw [if_pos h]
  | digital l sz lic =>
    have hty : p.getType = "Digital" := by simp [Product.getType, hv]
    refine ⟨fun hd => absurd (hty.symm.trans hd) (by decide), fun _ => ⟨?_, ?_⟩⟩
    · intro h0 h1
      simp only [Product.applyDiscount, hv]
      rw [if_neg (hin h0 h1)]
    · intro h
      simp only [Product.applyDiscount, hv]
      rw [if_pos h]

/-- A physical example record (price 100). -/
def physExample : Product := ⟨"P1", "Phys", 100, 1, "General", .physical 2 "Acme"⟩

/-- A digital example record (price 100). -/
def digExample : Product :=
  ⟨"D1", "Dig", 100, 1, "General", .digital ("url") 10 ("Single")⟩

/-- Witness for C3: at price 100 and percentage 10 the Physical discount
gives 90 and the Digital discount gives 85. -/
theorem c3_applyDiscount_witness :
    physExample.getType = "Physical" ∧ digExample.getType = "Digital" ∧
    (0 : ℚ) ≤ 10 ∧ (10 : ℚ) ≤ 100 ∧
    physExample.applyDiscount 10 = 90 ∧ digExample.applyDiscount 10 = 85 := by
  refine ⟨by decide, by decide, by norm_num, by norm_num, ?_, ?_⟩
  · rw [((c3_applyDiscount physExample 10).1 (by decide)).1 (by norm_num)
      (by norm_num)]
    norm_num [physExample]
  · rw [((c3_applyDiscount digExample 10).2 (by decide)).1 (by norm_num)
      (by norm_num)]
    rw [show min (10 + 5 : ℚ) 50 = 15 by norm_num [min_def]]
    norm_num [digExample]

/-- Claim C8: negative price, quantity, weight and file size are clamped
to zero at construction; the numeric setters reject a negative argument,
reporting failure and leaving the stored value unchanged, while a
nonnegative argument is stored with success. -/
theorem c8_validation (sku name category supplier link lic : String)
    (price w sz : ℚ) (q : ℤ) (p : Product) (x : ℚ) (n : ℤ) :
    (price < 0 →
      (PhysicalProduct.mk sku name price q category w supplier).price = 0 ∧
      (DigitalProduct.mk sku name price q category link sz lic).price = 0) ∧
    (q < 0 →
      (PhysicalProduct.mk sku name price q category w supplier).quantity = 0 ∧
      (DigitalProduct.mk sku name price q category link sz lic).quantity = 0) ∧
    (w < 0 → (PhysicalProduct.mk sku name price q category w supplier).variant
      = .physical 0 supplier) ∧
    (sz < 0 → (DigitalProduct.mk sku name price q category link sz lic).variant
      = .digital link 0 lic) ∧
    (x < 0 → p.setPrice x = (false, p)) ∧
    (0 ≤ x → p.setPrice x = (true, { p with price := x })) ∧
    (n < 0 → p.setQuantity n = (false, p)) ∧
    (0 ≤ n → p.setQuantity n = (true, { p with quantity := n })) ∧
    (x < 0 → p.setWeight x = (false, p)) ∧
    (x < 0 → p.setFileSizeMB x = (false, p)) ∧
    (0 ≤ x → ∀ w0 s0, p.variant = .physical w0 s0 →
      p.setWeight x = (true, { p with variant := .physical x s0 })) ∧
    (0 ≤ x → ∀ l0 z0 c0, p.variant = .digital l0 z0 c0 →
      p.setFileSizeMB x = (true, { p with variant := .digital l0 x c0 })) := by
  refine ⟨fun h => ?_, fun h => ?_, fun h => ?_, fun h => ?_, fun h => ?_,
    fun h => ?_, fun h => ?_, fun h => ?_, fun h => ?_, fun h => ?_,
    fun h w0 s0 hv => ?_, fun h l0 z0 c0 hv => ?_⟩
  · exact ⟨by simp [PhysicalProduct.mk, not_le.mpr h],
      by simp [DigitalProduct.mk, not_le.mpr h]⟩
  · exact ⟨by simp [PhysicalProduct.mk, not_le.mpr h],
      by simp [DigitalProduct.mk, not_le.mpr h]⟩
  · simp [PhysicalProduct.mk, not_le.mpr h]
  · simp [DigitalProduct.mk, not_le.mpr h]
  · simp [Product.setPrice, h]
  · simp [Product.setPrice, not_lt.mpr h]
  · simp [Product.setQuantity, h]
  · simp [Product.setQuantity, not_lt.mpr h]
  · cases hv : p.variant <;> simp [Product.setWeight, hv, h]
  · cases hv : p.variant <;> simp [Product.setFileSizeMB, hv, h]
  · simp [Product.setWeight, hv, not_lt.mpr h]
  · simp [Product.setFileSizeMB, hv, not_lt.mpr h]

/-- Witness for C8: constructing with price -5 stores 0, and
setPrice with -1 fails leaving the record unchanged. -/
theorem c8_validation_witness :
    (-5 : ℚ) < 0 ∧ (-1 : ℚ) < 0 ∧ (0 : ℚ) ≤ 7 ∧
    (PhysicalProduct.mk ("S") ("N") (-5) 3 ("C") 1 ("Sup")).price = 0 ∧
    physExample.setPrice (-1) = (false, physExample) ∧
    physExample.setPrice 7 = (true, { physExample with price := 7 }) := by
  refine ⟨by norm_num, by norm_num, by norm_num, ?_, ?_, ?_⟩
  · exact ((c8_validation ("S") ("N") ("C") ("Sup") ("l") ("c") (-5) 1 0 3
      physExample 0 0).1 (by norm_num)).1
  · exact (c8_validation ("S") ("N") ("C") ("Sup") ("l") ("c") (-5) 1 0 3
      physExample (-1) 0).2.2.2.2.1 (by norm_num)
  · exact (c8_validation ("S") ("N") ("C") ("Sup") ("l") ("c") (-5) 1 0 3
      physExample 7 0).2.2.2.2.2.1 (by norm_num)

/-- Claim C9 counterexample: a PhysicalProduct constructed with no
explicit category carries category Physical, not General, and likewise
Digital for DigitalProduct — contradicting the claim that the General
default applies to every variant kind. -/
theorem c9_counterexample :
    PhysicalProduct.defaultProduct.category = "Physical" ∧
    DigitalProduct.defaultProduct.category = "Digital" ∧
    PhysicalProduct.defaultProduct.category ≠ "General" :=
  ⟨rfl, rfl, by decide⟩

/-- Claim C9 amended: the General default is applied only by the base
Product initialization; the Physical and Digital default constructors then
overwrite the category with "Physical" and "Digital" respectively (the
parameterized constructors always receive the category explicitly). -/
theorem c9_amended_default_category :
    (∀ v : PVariant, (Product.defaultBase v).category = "General") ∧
    PhysicalProduct.defaultProduct.category = "Physical" ∧
    DigitalProduct.defaultProduct.category = "Digital" :=
  ⟨fun _ => rfl, rfl, rfl⟩

/-- Claim C10: when the file cannot be opened, loadFromFile returns
failure with the inventory exactly as it was; the store is cleared only on
the successful-open path, where loading restarts from the empty store. -/
theorem c10_load_fail_preserves (inv : Inventory) (lines : List String) :
    inv.loadFromFile none = (false, inv) ∧
    inv.loadFromFile (some lines)
      = (true, lines.foldl Inventory.processLine Inventory.empty) :=
  ⟨rfl, rfl⟩

/-- Claim C1: any sequence of adds starting from the empty inventory keeps
all skus distinct, and adding a record whose sku is already present, or a
null record, returns failure and leaves both the sequence and the index
unchanged. -/
theorem c1_add_uniqueness (reqs : List (Option Product)) :
    Inventory.NodupSkus (Inventory.runAdds reqs).products ∧
    (∀ p : Product,
      p.sku ∈ (Inventory.runAdds reqs).products.map Product.sku →
      (Inventory.runAdds reqs).addProduct (some p)
        = (false, Inventory.runAdds reqs)) ∧
    (Inventory.runAdds reqs).addProduct none
      = (false, Inventory.runAdds reqs) := by
  have hwf := wf_runAdds reqs
  exact ⟨hwf.1, fun p hp => add_existing_fails hwf hp, rfl⟩

/-- Example record with sku A. -/
def pA : Product := ⟨"A", "a", 1, 1, "G", .physical 0 "s"⟩

/-- Example record with sku B. -/
def pB : Product := ⟨"B", "b", 2, 1, "G", .digital ("u") 0 ("S")⟩

/-- Witness for C1 on the add sequence [A, null, B]: skus stay distinct
and re-adding A fails without changing the store. -/
theorem c1_add_uniqueness_witness :
    pA.sku ∈ (Inventory.runAdds [some pA, none, some pB]).products.map
      Product.sku ∧
    Inventory.NodupSkus (Inventory.runAdds [some pA, none, some pB]).products ∧
    (Inventory.runAdds [some pA, none, some pB]).addProduct (some pA)
      = (false, Inventory.runAdds [some pA, none, some pB]) :=
  ⟨by decide, (c1_add_uniqueness [some pA, none, some pB]).1,
    (c1_add_uniqueness [some pA, none, some pB]).2.1 pA (by decide)⟩

/-- The per-record effect of updateProduct written as a single record
update: empty name keeps the name, negative price keeps the price,
negative quantity keeps the quantity. -/
theorem applyUpdate_eq (name : String) (price : ℚ) (quantity : ℤ)
    (p : Product) :
    Inventory.applyUpdate name price quantity p
      = { p with
          name := if name = "" then p.name else name,
          price := if price < 0 then p.price else price,
          quantity := if quantity < 0 then p.quantity else quantity } := by
  unfold Inventory.applyUpdate Product.setName Product.setPrice
    Product.setQuantity
  by_cases h1 : name = "" <;> by_cases h2 : price < 0 <;>
    by_cases h3 : quantity < 0
  all_goals
    first
      | simp [h1, h2, h3, ge_iff_le, not_le.mpr h2, not_le.mpr h3]
      | simp [h1, h2, h3, ge_iff_le, not_le.mpr h2, le_of_not_lt h3]
      | simp [h1, h2, h3, ge_iff_le, le_of_not_lt h2, not_le.mpr h3]
      | simp [h1, h2, h3, ge_iff_le, le_of_not_lt h2, le_of_not_lt h3]

/-- Claim C6: updateProduct fails exactly when the sku is not in the
store, changing nothing; when the sku is found it reports success and
applies each field independently (empty name, negative price and negative
quantity each keep the current value). -/
theorem c6_update (inv : Inventory) (hwf : inv.WF) (sku name : String)
    (price : ℚ) (quantity : ℤ) :
    (sku ∉ inv.products.map Product.sku →
      inv.updateProduct sku name price quantity = (false, inv)) ∧
    (sku ∈ inv.products.map Product.sku →
      (inv.updateProduct sku name price quantity).1 = true ∧
      (inv.updateProduct sku name price quantity).2.products
        = inv.products.map (fun p => if p.sku = sku then
            { p with
              name := if name = "" then p.name else name,
              price := if price < 0 then p.price else price,
              quantity := if quantity < 0 then p.quantity else quantity }
          else p)) := by
  constructor
  · intro hmem
    have hnone : mapLookup inv.skuIndex sku = none := by
      rw [hwf.2]
      rw [← Option.not_isSome_iff_eq_none]
      intro hcon
      exact hmem ((rebuild_lookup_isSome_iff _ _).mp hcon)
    unfold Inventory.updateProduct
    rw [hnone]
  · intro hmem
    have hsome : (mapLookup inv.skuIndex sku).isSome := by
      rw [hwf.2]
      exact (rebuild_lookup_isSome_iff _ _).mpr hmem
    obtain ⟨p0, hp0⟩ := Option.isSome_iff_exists.mp hsome
    constructor
    · unfold Inventory.updateProduct
      rw [hp0]
    · unfold Inventory.updateProduct
      rw [hp0]
      simp only [applyUpdate_eq]

/-- Witness for C6 on a one-record store: updating sku A with an empty
name, price -1 and quantity 7 succeeds, keeping name and price and
setting the quantity. -/
theorem c6_update_witness :
    pA.sku ∈ (Inventory.runAdds [some pA]).products.map Product.sku ∧
    ((Inventory.runAdds [some pA]).updateProduct pA.sku ("") (-1) 7).1
      = true ∧
    ((Inventory.runAdds [some pA]).updateProduct pA.sku ("") (-1) 7).2.products
      = (Inventory.runAdds [some pA]).products.map (fun p =>
          if p.sku = pA.sku then
            { p with
              name := if ("" : String) = "" then p.name else "",
              price := if (-1 : ℚ) < 0 then p.price else -1,
              quantity := if (7 : ℤ) < 0 then p.quantity else 7 }
          else p) :=
  ⟨by decide,
    ((c6_update (Inventory.runAdds [some pA]) (wf_runAdds [some pA]) pA.sku
      ("") (-1) 7).2 (by decide)).1,
    ((c6_update (Inventory.runAdds [some pA]) (wf_runAdds [some pA]) pA.sku
      ("") (-1) 7).2 (by decide)).2⟩

/-- Claim C7: after any of the five sort operations the sku index is
consistent with the reordered sequence: every record is found under its
own sku and the index holds exactly the skus of the sequence. -/
theorem c7_sort_rebuilds_index (inv inv' : Inventory)
    (hnd : Inventory.NodupSkus inv.products)
    (hs : Inventory.SortBySku inv inv' ∨ Inventory.SortByName inv inv' ∨
      Inventory.SortByPrice inv inv' ∨ Inventory.SortByQuantity inv inv' ∨
      Inventory.SortByValue inv inv') :
    (∀ p ∈ inv'.products, inv'.getProduct p.sku = some p) ∧
    (∀ k, (inv'.getProduct k).isSome ↔ k ∈ inv'.products.map Product.sku) := by
  have hstep : inv.products.Perm inv'.products ∧
      inv'.skuIndex = Inventory.rebuildIndexFn inv'.products := by
    rcases hs with h | h | h | h | h <;> exact ⟨h.1.1, h.2⟩
  have hnd' : Inventory.NodupSkus inv'.products :=
    (hstep.1.map Product.sku).nodup_iff.mp hnd
  constructor
  · intro p hp
    unfold Inventory.getProduct
    rw [hstep.2]
    exact rebuild_lookup_mem hnd' hp
  · intro k
    unfold Inventory.getProduct
    rw [hstep.2]
    exact rebuild_lookup_isSome_iff _ k

/-- Witness for C7: sorting the two-record store [B, A] by price reorders
it to [A, B] and rebuilds a consistent index. -/
theorem c7_sort_rebuilds_index_witness :
    Inventory.NodupSkus (Inventory.runAdds [some pB, some pA]).products ∧
    Inventory.SortByPrice (Inventory.runAdds [some pB, some pA])
      ⟨[pA, pB], Inventory.rebuildIndexFn [pA, pB]⟩ ∧
    (∀ p ∈ ([pA, pB] : List Product),
      (⟨[pA, pB], Inventory.rebuildIndexFn [pA, pB]⟩ : Inventory).getProduct
        p.sku = some p) :=
  ⟨by decide, ⟨⟨by decide, by decide⟩, rfl⟩,
    (c7_sort_rebuilds_index (Inventory.runAdds [some pB, some pA])
      ⟨[pA, pB], Inventory.rebuildIndexFn [pA, pB]⟩ (by decide)
      (Or.inr (Or.inr (Or.inl ⟨⟨by decide, by decide⟩, rfl⟩)))).1⟩

/-- Claim C4: decoding the line produced by encoding a valid record
(text fields free of embedded commas, and line-breaks, which the
line-oriented format cannot carry) yields a record with the same sku,
name, category, variant kind and variant string fields, the same
quantity, and double fields equal within the fixed six-decimal formatting
tolerance. -/
theorem c4_csv_roundtrip (p : Product)
    (hsku : (',' : Char) ∉ p.sku.data) (hname : (',' : Char) ∉ p.name.data)
    (hcat : (',' : Char) ∉ p.category.data)
    (hp : 0 ≤ p.price) (hq : 0 ≤ p.quantity)
    (hvar : match p.variant with
      | .physical w s => 0 ≤ w ∧ ('\n' : Char) ∉ s.data
      | .digital l sz lic =>
          (',' : Char) ∉ l.data ∧ 0 ≤ sz ∧ ('\n' : Char) ∉ lic.data) :
    ∃ q, fromCSVLine p.toCSV = some q ∧ q.sku = p.sku ∧ q.name = p.name ∧
      q.category = p.category ∧ q.getType = p.getType ∧
      q.quantity = p.quantity ∧ |q.price - p.price| ≤ 1 / 1000000 ∧
      (match p.variant, q.variant with
        | .physical w s, .physical w' s' => s' = s ∧ |w' - w| ≤ 1 / 1000000
        | .digital l sz lic, .digital l' sz' lic' =>
            l' = l ∧ lic' = lic ∧ |sz' - sz| ≤ 1 / 1000000
        | _, _ => False) := by
  refine ⟨round6Rec p, fromCSVLine_toCSV p hsku hname hcat hp hq hvar, rfl,
    rfl, rfl, ?_, rfl, ?_, ?_⟩
  · cases hv : p.variant with
    | physical w s => simp [Product.getType, round6Rec, hv]
    | digital l sz lic => simp [Product.getType, round6Rec, hv]
  · exact abs_round6_sub p.price
  · cases hv : p.variant with
    | physical w s =>
      simp only [round6Rec, hv]
      exact ⟨trivial, abs_round6_sub w⟩
    | digital l sz lic =>
      simp only [round6Rec, hv]
      exact ⟨trivial, trivial, abs_round6_sub sz⟩

/-- A comma-free physical record used to witness the round trip. -/
def rtEx : Product := ⟨"A", "Widget", 1 / 2, 3, "Tools", .physical 0 "Acme"⟩

/-- Witness for C4 on a concrete physical record with price one half. -/
theorem c4_csv_roundtrip_witness :
    ((',' : Char) ∉ rtEx.sku.data ∧ (',' : Char) ∉ rtEx.name.data ∧
      (',' : Char) ∉ rtEx.category.data ∧ (0 : ℚ) ≤ rtEx.price ∧
      (0 : ℤ) ≤ rtEx.quantity) ∧
    (∃ q, fromCSVLine rtEx.toCSV = some q ∧ q.sku = rtEx.sku ∧
      q.name = rtEx.name ∧ q.category = rtEx.category ∧
      q.getType = rtEx.getType ∧ q.quantity = rtEx.quantity ∧
      |q.price - rtEx.price| ≤ 1 / 1000000 ∧
      (match rtEx.variant, q.variant with
        | .physical w s, .physical w' s' => s' = s ∧ |w' - w| ≤ 1 / 1000000
        | .digital l sz lic, .digital l' sz' lic' =>
            l' = l ∧ lic' = lic ∧ |sz' - sz| ≤ 1 / 1000000
        | _, _ => False)) :=
  ⟨⟨by decide, by decide, by decide, by with_unfolding_all decide, by decide⟩,
    c4_csv_roundtrip rtEx (by decide) (by decide) (by decide)
      (by with_unfolding_all decide) (by decide)
      ((by decide : (0 : ℚ) ≤ 0 ∧ ('\n' : Char) ∉ ("Acme" : String).data))⟩

/-- The malformed line refuting claim C2: nine comma-separated fields
where a Physical row has eight. -/
def badLine : String := "Physical,A,B,5,2,Cat,1,Sup,Extra"

/-- Claim C2 counterexample: the line is malformed (wrong field count),
yet bulk loading it into an empty store adds a record for it instead of
skipping the line. -/
theorem c2_counterexample :
    badLine.data.count ',' + 1 = 9 ∧
    (Inventory.empty.loadFromFile (some [badLine])).2.products.length = 1 :=
  ⟨by decide, by with_unfolding_all decide⟩

/-- Claim C2 amended: bulk load is guaranteed to skip only blank lines,
comment lines, and lines whose leading type tag is neither Physical nor
Digital; a wrong field count does not make a recognized-tag line skipped:
the nine-field counterexample line adds a record whose final text field
absorbs the extra trailing fields. -/
theorem c2_amended_skip_rule (inv : Inventory) (line : String) :
    (line.data = [] ∨ line.data.head? = some '#' →
      Inventory.processLine inv line = inv) ∧
    (typeTag line.data ≠ "Physical".data →
      typeTag line.data ≠ "Digital".data →
      Inventory.processLine inv line = inv) ∧
    (Inventory.processLine Inventory.empty badLine).products
      = [PhysicalProduct.mk ("A") ("B") 5 2 ("Cat") 1 ("Sup,Extra")] := by
  refine ⟨?_, ?_, by with_unfolding_all decide⟩
  · intro h
    unfold Inventory.processLine
    rw [if_pos h]
  · intro h1 h2
    unfold Inventory.processLine
    by_cases hb : line.data = [] ∨ line.data.head? = some '#'
    · rw [if_pos hb]
    · rw [if_neg hb]
      unfold fromCSVLine
      rw [if_neg h1, if_neg h2]

/-- Witness for C2 (amended): a line with the unrecognized tag Widget is
skipped by the loader. -/
theorem c2_amended_skip_rule_witness :
    typeTag ("Widget,X" : String).data ≠ "Physical".data ∧
    typeTag ("Widget,X" : String).data ≠ "Digital".data ∧
    Inventory.processLine Inventory.empty ("Widget,X") = Inventory.empty :=
  ⟨by decide, by decide,
    (c2_amended_skip_rule Inventory.empty ("Widget,X")).2.1 (by decide)
      (by decide)⟩

/-- Record A of value 50 for the sort-stability example. -/
def vA : Product := ⟨"A", "a", 50, 1, "G", .physical 0 "s"⟩

/-- Record B of value 200 for the sort-stability example. -/
def vB : Product := ⟨"B", "b", 200, 1, "G", .physical 0 "s"⟩

/-- Record C of value 50 for the sort-stability example. -/
def vC : Product := ⟨"C", "c", 50, 1, "G", .physical 0 "s"⟩

/-- The example store holding A, B, C in that order. -/
def invABC : Inventory := ⟨[vA, vB, vC], Inventory.rebuildIndexFn [vA, vB, vC]⟩

/-- The store after a sortByValue outcome that reverses the tied pair. -/
def invBCA : Inventory := ⟨[vB, vC, vA], Inventory.rebuildIndexFn [vB, vC, vA]⟩

/-- Claim C5 counterexample: on records of values [50, 200, 50] the
outcome [B, C, A] is a legitimate result of sortByValue — std::sort
promises only a permutation sorted by the comparator, not stability — and
it differs from [B, A, C], so tied records need not keep their original
relative order. -/
theorem c5_counterexample :
    Inventory.SortByValue invABC invBCA ∧ invBCA.products ≠ [vB, vA, vC] :=
  ⟨⟨⟨by decide, by with_unfolding_all decide⟩, rfl⟩, by decide⟩

/-- Claim C5 amended: every sort operation yields a permutation of the
records ordered by its key — ascending for sku, name, price and quantity,
descending by calculateValue for sortByValue — but the relative order of
records with equal keys is not guaranteed: on the example store of values
[A=50, B=200, C=50] the possible sortByValue outcomes are exactly
[B, A, C] and [B, C, A]. -/
theorem c5_amended_sorted_permutation :
    (∀ inv inv' : Inventory, Inventory.SortBySku inv inv' →
      inv.products.Perm inv'.products ∧
      inv'.products.Pairwise (fun a b => a.sku ≤ b.sku)) ∧
    (∀ inv inv' : Inventory, Inventory.SortByName inv inv' →
      inv.products.Perm inv'.products ∧
      inv'.products.Pairwise (fun a b => a.name ≤ b.name)) ∧
    (∀ inv inv' : Inventory, Inventory.SortByPrice inv inv' →
      inv.products.Perm inv'.products ∧
      inv'.products.Pairwise (fun a b => a.price ≤ b.price)) ∧
    (∀ inv inv' : Inventory, Inventory.SortByQuantity inv inv' →
      inv.products.Perm inv'.products ∧
      inv'.products.Pairwise (fun a b => a.quantity ≤ b.quantity)) ∧
    (∀ inv inv' : Inventory, Inventory.SortByValue inv inv' →
      inv.products.Perm inv'.products ∧
      inv'.products.Pairwise
        (fun a b => b.calculateValue ≤ a.calculateValue)) ∧
    (∀ out : List Product,
      Inventory.IsSortResult Inventory.valueGt [vA, vB, vC] out →
      out = [vB, vA, vC] ∨ out = [vB, vC, vA]) := by
  refine ⟨?_, ?_, ?_, ?_, ?_, ?_⟩
  · exact fun inv inv' h => ⟨h.1.1, h.1.2.imp (fun hab => not_lt.mp hab)⟩
  · exact fun inv inv' h => ⟨h.1.1, h.1.2.imp (fun hab => not_lt.mp hab)⟩
  · exact fun inv inv' h => ⟨h.1.1, h.1.2.imp (fun hab => not_lt.mp hab)⟩
  · exact fun inv inv' h => ⟨h.1.1, h.1.2.imp (fun hab => not_lt.mp hab)⟩
  · exact fun inv inv' h => ⟨h.1.1, h.1.2.imp (fun hab => not_lt.mp hab)⟩
  · intro out hout
    have hlen : out.length = 3 := (hout.1.length_eq).symm
    obtain ⟨x, y, z, rfl⟩ := List.length_eq_three.mp hlen
    have hx : x ∈ ([vA, vB, vC] : List Product) :=
      hout.1.mem_iff.mpr (by simp)
    have hy : y ∈ ([vA, vB, vC] : List Product) :=
      hout.1.mem_iff.mpr (by simp)
    have hz : z ∈ ([vA, vB, vC] : List Product) :=
      hout.1.mem_iff.mpr (by simp)
    simp only [List.mem_cons, List.not_mem_nil, or_false] at hx hy hz
    rcases hx with rfl | rfl | rfl <;> rcases hy with rfl | rfl | rfl <;>
      rcases hz with rfl | rfl | rfl <;>
      first
        | exact Or.inl rfl
        | exact Or.inr rfl
        | exact absurd hout.1 (by decide)
        | exact absurd hout.2 (by with_unfolding_all decide)

/-- Witness for C5 (amended): the tied outcome [B, C, A] is accepted and
falls in the stated two-element outcome set. -/
theorem c5_amended_sorted_permutation_witness :
    Inventory.IsSortResult Inventory.valueGt [vA, vB, vC] [vB, vC, vA] ∧
    (([vB, vC, vA] : List Product) = [vB, vA, vC] ∨
      ([vB, vC, vA] : List Product) = [vB, vC, vA]) :=
  ⟨⟨by decide, by with_unfolding_all decide⟩,
    c5_amended_sorted_permutation.2.2.2.2.2 [vB, vC, vA]
      ⟨by decide, by with_unfolding_all decide⟩⟩

end SmallBiz
